import Mathlib

/-!
# Verification of two HPC training snippets

Two programs are embedded:

* `HIP/Libraries/matrix_exponential/matrix_exponential.cpp` (namespace `MatrixExponential`):
  a DAXPY demo that fills and updates an object of class `daxpy` through its
  `set`/`get` members;
* `Pragma_Examples/OpenMP/CXX/5_device_routines/3_virtual_methods/0_virtual_methods_portyourself/bigscience.cc`
  (namespace `BigScience`): a loop of virtual `compute` calls on a heap array that is
  released and then printed.

Both `main` functions use the C counting loop `for (int i = 0; i < N; i++)`, embedded
once as `forLoop`.  The OpenMP pragmas of the first program are read sequentially in
the embedding; the order-independence they rely on is a theorem (`runOrder`).

The first part of the file holds the definitions, the second part the lemmas and the
theorems.
-/

/-! ## Definitions -/

/-- The C loop `for (int i = i0; i < N; i++) body`, entered with counter value `i`.
The counter is an `int`; `i < N` holds whenever `i + 1` is computed, so the increment
never overflows and the counter is an unbounded integer here.  The body runs in a
monad `m`: the identity monad for a body that cannot fail, `Except` for a body that
can raise an error (an error leaves the loop at once). -/
def forLoop {m : Type → Type} [Monad m] {σ : Type} (N : Int) (body : Int → σ → m σ)
    (i : Int) (s : σ) : m σ :=
  if i < N then
    body i s >>= fun s' => forLoop N body (i + 1) s'
  else
    pure s
termination_by (N - i).toNat
decreasing_by omega

/-- The indices `0, 1, ..., N-1` in ascending order; empty when `N ≤ 0`. -/
def ascending (N : Int) : List Int :=
  (List.range N.toNat).map Int.ofNat

/-- Ghost instrumentation of a loop body: the body is run unchanged on the first
component and the index it was called with is appended to the iteration record in
the second component. -/
def traced {m : Type → Type} [Monad m] {σ : Type} (body : Int → σ → m σ) :
    Int → σ × List Int → m (σ × List Int) :=
  fun i st => body i st.1 >>= fun s' => pure (s', st.2 ++ [i])

namespace MatrixExponential

/-- The two errors of the memory handle of the specification that the `daxpy`
object can raise. -/
inductive Error where
  | AllocationError
  | OutOfRangeError
  deriving DecidableEq, Repr

/-- Modelled from the spec: class `daxpy` is used by `main` but declared nowhere in
the sources.  Following the `MemoryHandle` of the specification it owns the scalar
`a` and two buffers `x` and `y` whose size is fixed at construction. -/
@[ext]
structure daxpy (α : Type) where
  a : α
  size : Nat
  x : List α
  y : List α
  hx : x.length = size
  hy : y.length = size

variable {α : Type}

/-- Modelled from the spec: the constructor `daxpy data(a, N)`, not in the sources.
As `create(size)` of the specification it allocates zero-initialised buffers and
fails with `AllocationError` if the size is negative. -/
def daxpy.create [Zero α] (a : α) (N : Int) : Except Error (daxpy α) :=
  if N < 0 then .error .AllocationError
  else .ok ⟨a, N.toNat, List.replicate N.toNat 0, List.replicate N.toNat 0, by simp, by simp⟩

/-- Modelled from the spec: member `setX(i, v)`, not in the sources.  As `set(i, v)`
of the specification it bounds-checks `i` against the size and fails with
`OutOfRangeError` otherwise; in range it stores `v` in `x[i]`. -/
def daxpy.setX (d : daxpy α) (i : Int) (v : α) : Except Error (daxpy α) :=
  if 0 ≤ i ∧ i < (d.size : Int) then
    .ok { d with x := d.x.set i.toNat v, hx := by simp [d.hx] }
  else .error .OutOfRangeError

/-- Modelled from the spec: member `setY(i, v)`, not in the sources; the bounds-checked
`set(i, v)` of the specification on the buffer `y`. -/
def daxpy.setY (d : daxpy α) (i : Int) (v : α) : Except Error (daxpy α) :=
  if 0 ≤ i ∧ i < (d.size : Int) then
    .ok { d with y := d.y.set i.toNat v, hy := by simp [d.hy] }
  else .error .OutOfRangeError

/-- Modelled from the spec: member `getX(i)`, not in the sources; the bounds-checked
`get(i)` of the specification on the buffer `x`. -/
def daxpy.getX (d : daxpy α) (i : Int) : Except Error α :=
  if 0 ≤ i ∧ i < (d.size : Int) then
    match d.x[i.toNat]? with
    | some v => .ok v
    | none => .error .OutOfRangeError
  else .error .OutOfRangeError

/-- Modelled from the spec: member `getY(i)`, not in the sources; the bounds-checked
`get(i)` of the specification on the buffer `y`. -/
def daxpy.getY (d : daxpy α) (i : Int) : Except Error α :=
  if 0 ≤ i ∧ i < (d.size : Int) then
    match d.y[i.toNat]? with
    | some v => .ok v
    | none => .error .OutOfRangeError
  else .error .OutOfRangeError

/-- Modelled from the spec: member `getConst()`, not in the sources; it returns the
scale factor given to the constructor. -/
def daxpy.getConst (d : daxpy α) : α := d.a

/-- Modelled from the spec: member `printArrays()`, not in the sources.  Printing is
out of the scope of the specification; the object is left as it is. -/
def daxpy.printArrays (d : daxpy α) : daxpy α := d

/-- Body of the first loop of `main` (lines 18-21): `data.setX(i,1.0); data.setY(i,0.5);`. -/
def initBody [OfScientific α] (i : Int) (data : daxpy α) : Except Error (daxpy α) := do
  let data ← data.setX i 1.0
  data.setY i 0.5

/-- The first loop of `main` (lines 17-21), for a loop bound `N`. -/
def initLoop [OfScientific α] (N : Int) (data : daxpy α) : Except Error (daxpy α) :=
  forLoop N initBody 0 data

/-- Body of the second loop of `main` (lines 28-31):
`double val = data.getConst() * data.getX(i) + data.getY(i); data.setY(i,val);`. -/
def daxpyBody [Mul α] [Add α] (i : Int) (data : daxpy α) : Except Error (daxpy α) := do
  let val := data.getConst * (← data.getX i) + (← data.getY i)
  data.setY i val

/-- The second loop of `main` (lines 27-31), for a loop bound `N`. -/
def daxpyLoop [Mul α] [Add α] (N : Int) (data : daxpy α) : Except Error (daxpy α) :=
  forLoop N daxpyBody 0 data

/-- The function `main` of `matrix_exponential.cpp`.  The scalar type `double` is a
parameter `α` with its own zero, product, sum and decimal literals, so that results
proved for every `α` hold for any arithmetic, floating point included. -/
def main (α : Type) [Zero α] [Mul α] [Add α] [OfScientific α] : Except Error (daxpy α) := do
  let N : Int := 10
  let a : α := 0.5
  let data ← daxpy.create a N
  let data ← initLoop N data
  let data := data.printArrays
  let data ← daxpyLoop N data
  let data := data.printArrays
  return data

/-- The parallel reading of the second loop, after the words of the specification:
the per-index body is executed once for every entry of `order`, in that order. -/
def runOrder [Mul α] [Add α] (order : List Int) (data : daxpy α) : Except Error (daxpy α) :=
  order.foldlM (fun s k => daxpyBody k s) data

/-- The value `a * x[j] + y[j]` of the object `d`, when `j` is inside both buffers. -/
def axpyAt [Mul α] [Add α] (d : daxpy α) (j : Nat) : Option α :=
  (d.x[j]?).bind fun xi => (d.y[j]?).map fun yi => d.a * xi + yi

end MatrixExponential

namespace BigScience

/-- Lifetime state of the heap array `x`: not yet allocated, allocated with one
initialised flag per element, or released. -/
inductive Buffer where
  | unallocated
  | allocated (init : List Bool)
  | released
  deriving DecidableEq, Repr

/-- What a read of an element of `x` finds. -/
inductive ReadStatus where
  | valid
  | uninitialised
  | outOfBounds
  | notAllocated
  | afterRelease
  deriving DecidableEq, Repr

/-- The memory events of `main`, in the order of the statements that cause them:
`new double[n]`, a call `compute(&x[start], count)`, `delete[] x` (with whether the
buffer was allocated at that moment) and a read of `x[i]` (with what it found). -/
inductive Event where
  | alloc (n : Int)
  | compute (start : Int) (count : Int)
  | release (wasAllocated : Bool)
  | read (i : Int) (status : ReadStatus)
  deriving DecidableEq, Repr

/-- The state of `main`: the array `x` and the events so far, oldest first. -/
structure State where
  x : Buffer
  log : List Event
  deriving DecidableEq, Repr

/-- The state on entry of `main`. -/
def State.initial : State := ⟨.unallocated, []⟩

/-- The statement `double *x = new double[N];` (line 16): the elements of a new array
of `double` are not initialised. -/
def newArray (N : Int) (s : State) : State :=
  { x := .allocated (List.replicate N.toNat false), log := s.log ++ [.alloc N] }

/-- The flags after the elements `j` with `written j` have been written. -/
def markWritten (written : Nat → Bool) (init : List Bool) : List Bool :=
  (List.range init.length).map (fun j => init.getD j false || written j)

/-- The call `myscienceclass.compute(&x[start], count)` (line 19).  The class
`HotScience` is declared in `HotScience.hh`, which is not among the sources: which
elements of `x` the call writes is the parameter `writes start count`. -/
def computeCall (writes : Int → Int → Nat → Bool) (start count : Int) (s : State) : State :=
  { x := match s.x with
      | .allocated init => .allocated (markWritten (writes start count) init)
      | b => b,
    log := s.log ++ [.compute start count] }

/-- The statement `delete[] x;` (line 22). -/
def deleteArray (s : State) : State :=
  { x := .released,
    log := s.log ++ [.release (match s.x with | .allocated _ => true | _ => false)] }

/-- What a read of `x[i]` finds in the buffer state `b`. -/
def readStatus (b : Buffer) (i : Int) : ReadStatus :=
  match b with
  | .unallocated => .notAllocated
  | .released => .afterRelease
  | .allocated init =>
    if 0 ≤ i ∧ i < (init.length : Int) then
      (if init.getD i.toNat false then .valid else .uninitialised)
    else .outOfBounds

/-- A read of `x[i]` by `main`, as in `cout << ... << x[0]` (line 24). -/
def readElem (i : Int) (s : State) : State :=
  { s with log := s.log ++ [.read i (readStatus s.x i)] }

/-- The loop of `main` (lines 18-20), for a loop bound `N`. -/
def computeLoop (writes : Int → Int → Nat → Bool) (N : Int) (s : State) : State :=
  Id.run (forLoop N (fun k s => pure (computeCall writes k N s)) 0 s)

/-- The function `main` of `bigscience.cc`. -/
def main (writes : Int → Int → Nat → Bool) : State :=
  let N : Int := 10000
  let s := State.initial
  let s := newArray N s
  let s := computeLoop writes N s
  let s := deleteArray s
  let s := readElem 0 s
  s

/-- All reads recorded in a log found an allocated buffer and an initialised element. -/
def readsSafe (log : List Event) : Bool :=
  log.all fun e => match e with
    | .read _ status => decide (status = .valid)
    | _ => true

/-- The calls of `compute` recorded in a log, as pairs of start index and count. -/
def computeCalls (log : List Event) : List (Int × Int) :=
  log.filterMap fun e => match e with
    | .compute start count => some (start, count)
    | _ => none

/-- The window `[start, start + count)` lies inside the buffer `[0, size)`. -/
def windowInside (start count size : Int) : Prop :=
  0 ≤ start ∧ start + count ≤ size

instance (start count size : Int) : Decidable (windowInside start count size) := by
  unfold windowInside; infer_instance

/-- The number of `delete[]` events of a log. -/
def releaseCount (log : List Event) : Nat :=
  (log.filter fun e => match e with | .release _ => true | _ => false).length

/-- The events of a log that follow its first `delete[]` event. -/
def eventsAfterRelease (log : List Event) : List Event :=
  (log.dropWhile fun e => match e with | .release _ => false | _ => true).drop 1

end BigScience

/-! ## Lemmas on the counting loop -/

theorem forLoop_eq_foldlM_from {m : Type → Type} [Monad m] [LawfulMonad m] {σ : Type}
    (N : Int) (body : Int → σ → m σ) :
    ∀ (n : Nat) (i : Int) (s : σ), (N - i).toNat = n →
      forLoop N body i s
        = List.foldlM (fun s k => body k s) s ((List.range n).map (fun k : Nat => i + (k : Int))) := by
  intro n
  induction n with
  | zero =>
    intro i s h
    rw [forLoop]
    have : ¬ i < N := by omega
    simp [this]
  | succ n ih =>
    intro i s h
    rw [forLoop]
    have hlt : i < N := by omega
    rw [if_pos hlt, List.range_succ_eq_map]
    simp only [List.map_cons, List.map_map, List.foldlM_cons, Nat.cast_zero, add_zero]
    congr 1
    funext s'
    rw [ih (i + 1) s' (by omega)]
    congr 1
    apply List.map_congr_left
    intro k _
    simp only [Function.comp, Nat.succ_eq_add_one, Nat.cast_add, Nat.cast_one]
    omega

theorem forLoop_eq_foldlM {m : Type → Type} [Monad m] [LawfulMonad m] {σ : Type}
    (N : Int) (body : Int → σ → m σ) (s : σ) :
    forLoop N body 0 s = List.foldlM (fun s k => body k s) s (ascending N) := by
  rw [forLoop_eq_foldlM_from N body N.toNat 0 s (by simp)]
  congr 1
  apply List.map_congr_left
  intro k _
  simp

theorem forLoop_traced_from {m : Type → Type} [Monad m] [LawfulMonad m] {σ : Type}
    (N : Int) (body : Int → σ → m σ) :
    ∀ (n : Nat) (i : Int) (s : σ) (tr : List Int), (N - i).toNat = n →
      forLoop N (traced body) i (s, tr)
        = (fun s' => (s', tr ++ (List.range n).map (fun k : Nat => i + (k : Int))))
            <$> forLoop N body i s := by
  intro n
  induction n with
  | zero =>
    intro i s tr h
    have : ¬ i < N := by omega
    rw [forLoop, forLoop]
    simp [this]
  | succ n ih =>
    intro i s tr h
    have hlt : i < N := by omega
    rw [forLoop, forLoop.eq_def N body]
    rw [if_pos hlt, if_pos hlt, List.range_succ_eq_map]
    simp only [traced, bind_assoc, pure_bind, map_bind]
    congr 1
    funext s'
    rw [ih (i + 1) s' _ (by omega)]
    congr 1
    funext s''
    simp only [List.map_cons, List.map_map, Nat.cast_zero, add_zero, List.append_assoc,
      List.singleton_append, Prod.mk.injEq, true_and, List.cons.injEq]
    congr 2
    apply List.map_congr_left
    intro k _
    simp only [Function.comp, Nat.succ_eq_add_one, Nat.cast_add, Nat.cast_one]
    omega

theorem forLoop_traced {m : Type → Type} [Monad m] [LawfulMonad m] {σ : Type}
    (N : Int) (body : Int → σ → m σ) (s : σ) :
    forLoop N (traced body) 0 (s, []) = (fun s' => (s', ascending N)) <$> forLoop N body 0 s := by
  rw [forLoop_traced_from N body N.toNat 0 s [] (by simp)]
  congr 1
  funext s'
  simp only [List.nil_append, ascending, Prod.mk.injEq, true_and]
  apply List.map_congr_left
  intro k _
  simp

theorem ascending_length (N : Int) : ((ascending N).length : Int) = max N 0 := by
  simp [ascending]

theorem ascending_getElem? (N : Int) (j : Nat) (h : (j : Int) < N) :
    (ascending N)[j]? = some (j : Int) := by
  have : j < N.toNat := by omega
  simp [ascending, List.getElem?_range this]

theorem mem_ascending (N k : Int) : k ∈ ascending N ↔ 0 ≤ k ∧ k < N := by
  simp only [ascending, List.mem_map, List.mem_range]
  constructor
  · rintro ⟨j, hj, rfl⟩
    constructor
    · exact Int.ofNat_nonneg j
    · have : ((j : Nat) : Int) < N := by omega
      exact this
  · rintro ⟨h0, h1⟩
    refine ⟨k.toNat, by omega, ?_⟩
    show ((k.toNat : Nat) : Int) = k
    omega

theorem ascending_nodup (N : Int) : (ascending N).Nodup := by
  unfold ascending
  apply List.Nodup.map
  · intro a b h
    exact Int.ofNat.inj h
  · exact List.nodup_range _

/-! ## The DAXPY demo: lemmas on the members and the two loops -/

namespace MatrixExponential

variable {α : Type}

theorem setX_ok (d : daxpy α) (k : Nat) (hk : k < d.size) (v : α) :
    d.setX (k : Int) v = .ok { d with x := d.x.set k v, hx := by simp [d.hx] } := by
  have h : 0 ≤ (k : Int) ∧ (k : Int) < (d.size : Int) := ⟨by omega, by omega⟩
  simp [daxpy.setX, h]

theorem setY_ok (d : daxpy α) (k : Nat) (hk : k < d.size) (v : α) :
    d.setY (k : Int) v = .ok { d with y := d.y.set k v, hy := by simp [d.hy] } := by
  have h : 0 ≤ (k : Int) ∧ (k : Int) < (d.size : Int) := ⟨by omega, by omega⟩
  simp [daxpy.setY, h]

theorem getX_ok (d : daxpy α) (k : Nat) (hk : k < d.size) :
    d.getX (k : Int) = .ok (d.x.get ⟨k, by rw [d.hx]; exact hk⟩) := by
  have h : 0 ≤ (k : Int) ∧ (k : Int) < (d.size : Int) := ⟨by omega, by omega⟩
  have hl : k < d.x.length := by rw [d.hx]; exact hk
  simp [daxpy.getX, h, List.getElem?_eq_getElem hl]

theorem getY_ok (d : daxpy α) (k : Nat) (hk : k < d.size) :
    d.getY (k : Int) = .ok (d.y.get ⟨k, by rw [d.hy]; exact hk⟩) := by
  have h : 0 ≤ (k : Int) ∧ (k : Int) < (d.size : Int) := ⟨by omega, by omega⟩
  have hl : k < d.y.length := by rw [d.hy]; exact hk
  simp [daxpy.getY, h, List.getElem?_eq_getElem hl]

theorem initBody_ok [OfScientific α] (d : daxpy α) (k : Nat) (hk : k < d.size) :
    initBody (k : Int) d
      = .ok { d with x := d.x.set k 1.0, y := d.y.set k 0.5,
                     hx := by simp [d.hx], hy := by simp [d.hy] } := by
  unfold initBody
  rw [setX_ok d k hk]
  show daxpy.setY _ _ _ = _
  rw [setY_ok _ k (by exact hk)]

theorem daxpyBody_ok [Mul α] [Add α] (d : daxpy α) (k : Nat) (hk : k < d.size) :
    daxpyBody (k : Int) d
      = .ok { d with
          y := d.y.set k (d.a * d.x.get ⟨k, by rw [d.hx]; exact hk⟩
                            + d.y.get ⟨k, by rw [d.hy]; exact hk⟩),
          hy := by simp [d.hy] } := by
  unfold daxpyBody
  rw [getX_ok d k hk, getY_ok d k hk]
  show daxpy.setY _ _ _ = _
  rw [setY_ok d k hk]
  rfl

theorem axpyAt_eq [Mul α] [Add α] (d : daxpy α) (k : Nat) (hk : k < d.size) :
    axpyAt d k = some (d.a * d.x.get ⟨k, by rw [d.hx]; exact hk⟩
                            + d.y.get ⟨k, by rw [d.hy]; exact hk⟩) := by
  have hlx : k < d.x.length := by rw [d.hx]; exact hk
  have hly : k < d.y.length := by rw [d.hy]; exact hk
  simp [axpyAt, List.getElem?_eq_getElem hlx, List.getElem?_eq_getElem hly]

/-- Running the body of the second loop over a duplicate-free list of indices inside
the buffers succeeds; it changes exactly the entries of `y` at the listed indices. -/
theorem foldlM_daxpyBody [Mul α] [Add α] (l : List Int) :
    ∀ d : daxpy α, l.Nodup → (∀ i ∈ l, 0 ≤ i ∧ i < (d.size : Int)) →
      ∃ d', l.foldlM (fun s k => daxpyBody k s) d = Except.ok d' ∧
        d'.a = d.a ∧ d'.size = d.size ∧ d'.x = d.x ∧
        ∀ j : Nat, d'.y[j]? = if (j : Int) ∈ l then axpyAt d j else d.y[j]? := by
  induction l with
  | nil =>
    intro d _ _
    exact ⟨d, rfl, rfl, rfl, rfl, by simp⟩
  | cons i l ih =>
    intro d hnd hin
    obtain ⟨hi0, hi1⟩ := hin i (List.mem_cons_self i l)
    obtain ⟨k, rfl⟩ := Int.eq_ofNat_of_zero_le hi0
    have hk : k < d.size := by omega
    rw [List.nodup_cons] at hnd
    obtain ⟨hnotin, hnd'⟩ := hnd
    have hlx : k < d.x.length := by rw [d.hx]; exact hk
    have hly : k < d.y.length := by rw [d.hy]; exact hk
    obtain ⟨d1, hd1, h1a, h1s, h1x, h1y⟩ :
        ∃ d1 : daxpy α, daxpyBody (k : Int) d = Except.ok d1 ∧ d1.a = d.a ∧ d1.size = d.size ∧
          d1.x = d.x ∧ d1.y = d.y.set k (d.a * d.x[k] + d.y[k]) :=
      ⟨_, daxpyBody_ok d k hk, rfl, rfl, rfl, rfl⟩
    obtain ⟨d', hrun, ha, hs, hxx, hy⟩ :=
      ih d1 hnd' (fun j hj => by rw [h1s]; exact hin j (List.mem_cons_of_mem _ hj))
    refine ⟨d', ?_, ha.trans h1a, hs.trans h1s, hxx.trans h1x, ?_⟩
    · rw [List.foldlM_cons, hd1]
      exact hrun
    intro j
    rw [hy j]
    by_cases hjl : (j : Int) ∈ l
    · have hjk : k ≠ j := by
        rintro rfl
        exact hnotin hjl
      simp [hjl, axpyAt, h1a, h1x, h1y, List.getElem?_set_ne hjk]
    · by_cases hjk : j = k
      · subst hjk
        simp [hjl, axpyAt_eq d j hk, h1y, List.getElem?_set_self hly]
      · have hjk' : k ≠ j := fun h => hjk h.symm
        have : ¬ (j : Int) = (k : Int) := by omega
        simp [hjl, this, h1y, List.getElem?_set_ne hjk']


/-- Running the body of the first loop over a list of indices inside the buffers
succeeds; it sets `x` to `1.0` and `y` to `0.5` at exactly the listed indices. -/
theorem foldlM_initBody [OfScientific α] (l : List Int) :
    ∀ d : daxpy α, (∀ i ∈ l, 0 ≤ i ∧ i < (d.size : Int)) →
      ∃ d', l.foldlM (fun s k => initBody k s) d = Except.ok d' ∧
        d'.a = d.a ∧ d'.size = d.size ∧
        (∀ j : Nat, d'.x[j]? = if (j : Int) ∈ l then some 1.0 else d.x[j]?) ∧
        (∀ j : Nat, d'.y[j]? = if (j : Int) ∈ l then some 0.5 else d.y[j]?) := by
  induction l with
  | nil =>
    intro d _
    exact ⟨d, rfl, rfl, rfl, by simp, by simp⟩
  | cons i l ih =>
    intro d hin
    obtain ⟨hi0, hi1⟩ := hin i (List.mem_cons_self i l)
    obtain ⟨k, rfl⟩ := Int.eq_ofNat_of_zero_le hi0
    have hk : k < d.size := by omega
    have hlx : k < d.x.length := by rw [d.hx]; exact hk
    have hly : k < d.y.length := by rw [d.hy]; exact hk
    obtain ⟨d1, hd1, h1a, h1s, h1x, h1y⟩ :
        ∃ d1 : daxpy α, initBody (k : Int) d = Except.ok d1 ∧ d1.a = d.a ∧ d1.size = d.size ∧
          d1.x = d.x.set k 1.0 ∧ d1.y = d.y.set k 0.5 :=
      ⟨_, initBody_ok d k hk, rfl, rfl, rfl, rfl⟩
    obtain ⟨d', hrun, ha, hs, hxx, hyy⟩ :=
      ih d1 (fun j hj => by rw [h1s]; exact hin j (List.mem_cons_of_mem _ hj))
    refine ⟨d', ?_, ha.trans h1a, hs.trans h1s, ?_, ?_⟩
    · rw [List.foldlM_cons, hd1]
      exact hrun
    · intro j
      rw [hxx j]
      by_cases hjl : (j : Int) ∈ l
      · simp [hjl]
      · by_cases hjk : j = k
        · subst hjk
          simp [hjl, h1x, List.getElem?_set_self hlx]
        · have hjk' : k ≠ j := fun h => hjk h.symm
          have : ¬ (j : Int) = (k : Int) := by omega
          simp [hjl, this, h1x, List.getElem?_set_ne hjk']
    · intro j
      rw [hyy j]
      by_cases hjl : (j : Int) ∈ l
      · simp [hjl]
      · by_cases hjk : j = k
        · subst hjk
          simp [hjl, h1y, List.getElem?_set_self hly]
        · have hjk' : k ≠ j := fun h => hjk h.symm
          have : ¬ (j : Int) = (k : Int) := by omega
          simp [hjl, this, h1y, List.getElem?_set_ne hjk']

theorem natCast_mem_ascending (n j : Nat) : (j : Int) ∈ ascending (n : Int) ↔ j < n := by
  rw [mem_ascending]
  omega

theorem ascending_inRange (d : daxpy α) :
    ∀ i ∈ ascending (d.size : Int), 0 ≤ i ∧ i < (d.size : Int) :=
  fun i hi => (mem_ascending _ i).1 hi

/-- The first loop, run with the size of the object as bound, succeeds and fills both
buffers. -/
theorem initLoop_spec [OfScientific α] (d : daxpy α) :
    ∃ d', initLoop (d.size : Int) d = Except.ok d' ∧ d'.a = d.a ∧ d'.size = d.size ∧
      d'.x = List.replicate d.size 1.0 ∧ d'.y = List.replicate d.size 0.5 := by
  obtain ⟨d', hrun, ha, hs, hxx, hyy⟩ := foldlM_initBody (ascending d.size) d (ascending_inRange d)
  refine ⟨d', ?_, ha, hs, ?_, ?_⟩
  · unfold initLoop
    rw [forLoop_eq_foldlM]
    exact hrun
  · apply List.ext_getElem?
    intro j
    rw [hxx j, List.getElem?_replicate]
    by_cases hj : j < d.size
    · simp [hj, natCast_mem_ascending]
    · have : d.x.length ≤ j := by rw [d.hx]; omega
      simp [hj, natCast_mem_ascending, List.getElem?_eq_none this]
  · apply List.ext_getElem?
    intro j
    rw [hyy j, List.getElem?_replicate]
    by_cases hj : j < d.size
    · simp [hj, natCast_mem_ascending]
    · have : d.y.length ≤ j := by rw [d.hy]; omega
      simp [hj, natCast_mem_ascending, List.getElem?_eq_none this]

/-- The order-free form of the second loop: over any duplicate-free list holding
exactly the indices of the buffers, the result is the AXPY update of `y`. -/
theorem runOrder_spec [Mul α] [Add α] (d : daxpy α) (order : List Int)
    (hnd : order.Nodup) (hmem : ∀ i, i ∈ order ↔ 0 ≤ i ∧ i < (d.size : Int)) :
    runOrder order d
      = Except.ok { d with y := List.zipWith (fun xi yi => d.a * xi + yi) d.x d.y,
                           hy := by simp [d.hx, d.hy] } := by
  obtain ⟨d', hrun, ha, hs, hxx, hyy⟩ := foldlM_daxpyBody order d hnd (fun i hi => (hmem i).1 hi)
  unfold runOrder
  rw [hrun]
  congr 1
  apply daxpy.ext
  · exact ha
  · exact hs
  · exact hxx
  show d'.y = List.zipWith (fun xi yi => d.a * xi + yi) d.x d.y
  apply List.ext_getElem?
  intro j
  rw [hyy j, List.getElem?_zipWith]
  by_cases hj : j < d.size
  · have hin : (j : Int) ∈ order := (hmem j).2 ⟨by omega, by omega⟩
    have hlx : j < d.x.length := by rw [d.hx]; exact hj
    have hly : j < d.y.length := by rw [d.hy]; exact hj
    simp [hin, axpyAt, List.getElem?_eq_getElem hlx, List.getElem?_eq_getElem hly]
  · have hin : ¬ (j : Int) ∈ order := fun h => hj (by have := (hmem j).1 h; omega)
    have hlx : d.x.length ≤ j := by rw [d.hx]; omega
    have hly : d.y.length ≤ j := by rw [d.hy]; omega
    simp [hin, List.getElem?_eq_none hlx, List.getElem?_eq_none hly]

theorem daxpyLoop_eq_runOrder [Mul α] [Add α] (N : Int) (d : daxpy α) :
    daxpyLoop N d = runOrder (ascending N) d := by
  unfold daxpyLoop runOrder
  rw [forLoop_eq_foldlM]

/-- The second loop, run with the size of the object as bound, succeeds with the
AXPY update of `y`. -/
theorem daxpyLoop_spec [Mul α] [Add α] (d : daxpy α) :
    daxpyLoop (d.size : Int) d
      = Except.ok { d with y := List.zipWith (fun xi yi => d.a * xi + yi) d.x d.y,
                           hy := by simp [d.hx, d.hy] } := by
  rw [daxpyLoop_eq_runOrder]
  exact runOrder_spec d _ (ascending_nodup _) (fun i => mem_ascending _ i)


theorem create_ok [Zero α] (a : α) (n : Nat) :
    ∃ d : daxpy α, daxpy.create a (n : Int) = Except.ok d ∧ d.a = a ∧ d.size = n := by
  refine ⟨⟨a, n, List.replicate n 0, List.replicate n 0, by simp, by simp⟩, ?_, rfl, rfl⟩
  have : ¬ ((n : Int) < 0) := by omega
  simp [daxpy.create, this]

/-- The three steps of `main` for a size `n` and a scale factor `a`: construction,
first loop, second loop. -/
theorem pipeline_spec [Zero α] [Mul α] [Add α] [OfScientific α] (a : α) (n : Nat) :
    ∃ d0 d1 d2 : daxpy α, daxpy.create a (n : Int) = Except.ok d0 ∧
      initLoop (n : Int) d0 = Except.ok d1 ∧ daxpyLoop (n : Int) d1 = Except.ok d2 ∧
      d1.a = a ∧ d1.size = n ∧ d1.x = List.replicate n 1.0 ∧ d1.y = List.replicate n 0.5 ∧
      d2.a = a ∧ d2.size = n ∧ d2.x = List.replicate n 1.0 ∧
      d2.y = List.replicate n (a * 1.0 + 0.5) := by
  obtain ⟨d0, h0, h0a, h0s⟩ := create_ok a n
  obtain ⟨d1, h1, h1a, h1s, h1x, h1y⟩ := initLoop_spec d0
  obtain ⟨d2, h2, h2a, h2s, h2x, h2y⟩ :
      ∃ d2 : daxpy α, daxpyLoop (d1.size : Int) d1 = Except.ok d2 ∧ d2.a = d1.a ∧
        d2.size = d1.size ∧ d2.x = d1.x ∧
        d2.y = List.zipWith (fun xi yi => d1.a * xi + yi) d1.x d1.y :=
    ⟨_, daxpyLoop_spec d1, rfl, rfl, rfl, rfl⟩
  rw [h0s] at h1 h1x h1y h1s
  rw [h1s] at h2 h2s
  refine ⟨d0, d1, d2, h0, h1, h2, h1a.trans h0a, h1s, h1x, h1y, h2a.trans (h1a.trans h0a),
    h2s, h2x.trans h1x, ?_⟩
  rw [h2y, h1x, h1y, h1a, h0a]
  simp [List.zipWith_replicate]

theorem main_eq (α : Type) [Zero α] [Mul α] [Add α] [OfScientific α] :
    ∃ d : daxpy α, main α = Except.ok d ∧ d.a = 0.5 ∧ d.size = 10 ∧
      d.x = List.replicate 10 1.0 ∧ d.y = List.replicate 10 (0.5 * 1.0 + 0.5) := by
  obtain ⟨d0, d1, d2, h0, h1, h2, _, _, _, _, h2a, h2s, h2x, h2y⟩ :=
    pipeline_spec (0.5 : α) 10
  refine ⟨d2, ?_, h2a, h2s, h2x, h2y⟩
  unfold main
  have e : (10 : Int) = ((10 : Nat) : Int) := rfl
  simp only [e, h0, daxpy.printArrays]
  show (initLoop _ d0 >>= fun d => daxpyLoop _ d >>= fun d => pure d) = _
  rw [h1]
  show (daxpyLoop _ d1 >>= fun d => pure d) = _
  rw [h2]
  rfl


/-! ## The DAXPY demo: theorems -/

theorem getX_of_getElem? (d : daxpy α) (k : Nat) (v : α) (h : d.x[k]? = some v) :
    d.getX (k : Int) = Except.ok v := by
  have hl : k < d.x.length := by
    by_contra hc
    rw [List.getElem?_eq_none (by omega)] at h
    exact Option.noConfusion h
  have hr : 0 ≤ (k : Int) ∧ (k : Int) < (d.size : Int) := ⟨by omega, by have := d.hx; omega⟩
  simp [daxpy.getX, hr, h]

theorem getY_of_getElem? (d : daxpy α) (k : Nat) (v : α) (h : d.y[k]? = some v) :
    d.getY (k : Int) = Except.ok v := by
  have hl : k < d.y.length := by
    by_contra hc
    rw [List.getElem?_eq_none (by omega)] at h
    exact Option.noConfusion h
  have hr : 0 ≤ (k : Int) ∧ (k : Int) < (d.size : Int) := ⟨by omega, by have := d.hy; omega⟩
  simp [daxpy.getY, hr, h]

theorem getX_replicate (d : daxpy α) (n : Nat) (v : α)
    (h : d.x = List.replicate n v) (i : Fin n) : d.getX ((i : Nat) : Int) = Except.ok v :=
  getX_of_getElem? d i v (by rw [h]; simp [i.isLt])

theorem getY_replicate (d : daxpy α) (n : Nat) (v : α)
    (h : d.y = List.replicate n v) (i : Fin n) : d.getY ((i : Nat) : Int) = Except.ok v :=
  getY_of_getElem? d i v (by rw [h]; simp [i.isLt])

/-- C1: end-to-end scenario of `main` (N = 10, a = 0.5): in every arithmetic in which
`0.5 * 1.0 + 0.5 = 1.0` (the rationals, binary floating point), `main` returns an
object of size 10 with `y[i] = 1.0` and `x[i] = 1.0` for every `i` in `0..9`. -/
theorem main_scenario (α : Type) [Zero α] [Mul α] [Add α] [OfScientific α]
    (h : (0.5 : α) * 1.0 + 0.5 = 1.0) :
    ∃ d : daxpy α, main α = Except.ok d ∧ d.size = 10 ∧
      d.y = List.replicate 10 1.0 ∧ d.x = List.replicate 10 1.0 ∧
      ∀ i : Fin 10, d.getY ((i : Nat) : Int) = Except.ok 1.0 ∧
        d.getX ((i : Nat) : Int) = Except.ok 1.0 := by
  obtain ⟨d, hd, _, hs, hx, hy⟩ := main_eq α
  rw [h] at hy
  exact ⟨d, hd, hs, hy, hx, fun i => ⟨getY_replicate d 10 _ hy i, getX_replicate d 10 _ hx i⟩⟩

/-- C1 over the rationals: `0.5 * 1.0 + 0.5 = 1.0` holds there, and `main` ends with
`y[i] = 1.0` and `x[i] = 1.0` for every `i` in `0..9`. -/
theorem main_scenario_rat :
    (0.5 : ℚ) * 1.0 + 0.5 = 1.0 ∧
    ∃ d : daxpy ℚ, main ℚ = Except.ok d ∧ d.size = 10 ∧
      d.y = List.replicate 10 1.0 ∧ d.x = List.replicate 10 1.0 ∧
      ∀ i : Fin 10, d.getY ((i : Nat) : Int) = Except.ok 1.0 ∧
        d.getX ((i : Nat) : Int) = Except.ok 1.0 :=
  ⟨by norm_num, main_scenario ℚ (by norm_num)⟩

/-- C2: AXPY postcondition of the second loop.  For every object (every size, scalar
`a` and buffers `x`, `y` of that size) the loop succeeds, and the new `y` holds
`a * x[i] + y[i]` at every index `i`, computed from the `y[i]` before the loop. -/
theorem daxpyLoop_postcondition [Mul α] [Add α] (d : daxpy α) :
    ∃ d' : daxpy α, daxpyLoop (d.size : Int) d = Except.ok d' ∧ d'.size = d.size ∧
      d'.y = List.zipWith (fun xi yi => d.a * xi + yi) d.x d.y ∧
      ∀ i : Fin d.size,
        d'.getY ((i : Nat) : Int)
          = Except.ok (d.getConst * d.x.get (i.cast d.hx.symm) + d.y.get (i.cast d.hy.symm)) := by
  refine ⟨_, daxpyLoop_spec d, rfl, rfl, ?_⟩
  intro i
  apply getY_of_getElem?
  have hlx : (i : Nat) < d.x.length := by rw [d.hx]; exact i.isLt
  have hly : (i : Nat) < d.y.length := by rw [d.hy]; exact i.isLt
  show (List.zipWith (fun xi yi => d.a * xi + yi) d.x d.y)[(i : Nat)]? = _
  rw [List.getElem?_zipWith, List.getElem?_eq_getElem hlx, List.getElem?_eq_getElem hly]
  rfl

/-- C3: the second loop does not depend on the order of its iterations.  Running the
body once per index in any permutation of `0..N-1`, or chunk by chunk for any split
of `0..N-1` into chunks taken in any order, gives exactly the result of the ascending
sequential loop, which succeeds. -/
theorem daxpyLoop_order_independent [Mul α] [Add α] (d : daxpy α) :
    (∃ d' : daxpy α, daxpyLoop (d.size : Int) d = Except.ok d') ∧
    (∀ order : List Int, order.Perm (ascending (d.size : Int)) →
      runOrder order d = daxpyLoop (d.size : Int) d) ∧
    (∀ chunks chunks' : List (List Int), chunks.flatten = ascending (d.size : Int) →
      chunks'.Perm chunks → runOrder chunks'.flatten d = daxpyLoop (d.size : Int) d) := by
  have key : ∀ order : List Int, order.Perm (ascending (d.size : Int)) →
      runOrder order d = daxpyLoop (d.size : Int) d := by
    intro order hp
    rw [daxpyLoop_spec d]
    apply runOrder_spec d order
    · exact hp.nodup_iff.2 (ascending_nodup _)
    · intro i
      rw [hp.mem_iff]
      exact mem_ascending _ i
  refine ⟨⟨_, daxpyLoop_spec d⟩, key, ?_⟩
  intro chunks chunks' hc hp
  apply key
  rw [← hc]
  exact hp.flatten

/-- C3 on an example: the order `2, 0, 1` on vectors of length 3. -/
theorem daxpyLoop_order_independent_example :
    ([2, 0, 1] : List Int).Perm (ascending 3) ∧
    runOrder [2, 0, 1] (⟨2, 3, [1, 2, 3], [4, 5, 6], rfl, rfl⟩ : daxpy ℚ)
      = daxpyLoop 3 ⟨2, 3, [1, 2, 3], [4, 5, 6], rfl, rfl⟩ :=
  ⟨by decide,
   (daxpyLoop_order_independent (⟨2, 3, [1, 2, 3], [4, 5, 6], rfl, rfl⟩ : daxpy ℚ)).2.1
     [2, 0, 1] (by decide)⟩


theorem traced_ok {σ : Type} (N : Int) (body : Int → σ → Except Error σ) (s s' : σ)
    (h : forLoop N body 0 s = Except.ok s') :
    forLoop N (traced body) 0 (s, []) = Except.ok (s', ascending N) := by
  rw [forLoop_traced, h]
  rfl

theorem setX_error_iff (d : daxpy α) (i : Int) (v : α) :
    d.setX i v = Except.error Error.OutOfRangeError ↔ ¬ (0 ≤ i ∧ i < (d.size : Int)) := by
  unfold daxpy.setX
  by_cases h : 0 ≤ i ∧ i < (d.size : Int)
  · simp [h]
  · simp [h]

theorem setY_error_iff (d : daxpy α) (i : Int) (v : α) :
    d.setY i v = Except.error Error.OutOfRangeError ↔ ¬ (0 ≤ i ∧ i < (d.size : Int)) := by
  unfold daxpy.setY
  by_cases h : 0 ≤ i ∧ i < (d.size : Int)
  · simp [h]
  · simp [h]

theorem getX_error_iff (d : daxpy α) (i : Int) :
    d.getX i = Except.error Error.OutOfRangeError ↔ ¬ (0 ≤ i ∧ i < (d.size : Int)) := by
  by_cases h : 0 ≤ i ∧ i < (d.size : Int)
  · obtain ⟨k, rfl⟩ := Int.eq_ofNat_of_zero_le h.1
    rw [getX_ok d k (by omega)]
    simp [h]
  · simp [daxpy.getX, h]

theorem getY_error_iff (d : daxpy α) (i : Int) :
    d.getY i = Except.error Error.OutOfRangeError ↔ ¬ (0 ≤ i ∧ i < (d.size : Int)) := by
  by_cases h : 0 ≤ i ∧ i < (d.size : Int)
  · obtain ⟨k, rfl⟩ := Int.eq_ofNat_of_zero_le h.1
    rw [getY_ok d k (by omega)]
    simp [h]
  · simp [daxpy.getY, h]

/-- C4: bounds safety of `main`.  `main` returns without an error; for every scale
factor and every size `N ≥ 0` the construction and both loops succeed, and the
instrumented loops record exactly the indices `0..N-1`; every such index `i` satisfies
`0 ≤ i < N`; and a `set`/`get` member raises `OutOfRangeError` exactly when its index is
outside `[0, size)`, so the out-of-range branch is never taken. -/
theorem main_in_bounds (α : Type) [Zero α] [Mul α] [Add α] [OfScientific α] :
    (∃ d : daxpy α, main α = Except.ok d) ∧
    (∀ (a : α) (N : Nat), ∃ d0 d1 d2 : daxpy α,
      daxpy.create a (N : Int) = Except.ok d0 ∧ d0.size = N ∧
      initLoop (N : Int) d0 = Except.ok d1 ∧ daxpyLoop (N : Int) d1 = Except.ok d2 ∧
      forLoop (N : Int) (traced initBody) 0 (d0, []) = Except.ok (d1, ascending N) ∧
      forLoop (N : Int) (traced daxpyBody) 0 (d1, []) = Except.ok (d2, ascending N)) ∧
    (∀ N i : Int, i ∈ ascending N → 0 ≤ i ∧ i < N) ∧
    (∀ (d : daxpy α) (i : Int) (v : α),
      (d.setX i v = Except.error Error.OutOfRangeError ↔ ¬ (0 ≤ i ∧ i < (d.size : Int))) ∧
      (d.setY i v = Except.error Error.OutOfRangeError ↔ ¬ (0 ≤ i ∧ i < (d.size : Int))) ∧
      (d.getX i = Except.error Error.OutOfRangeError ↔ ¬ (0 ≤ i ∧ i < (d.size : Int))) ∧
      (d.getY i = Except.error Error.OutOfRangeError ↔ ¬ (0 ≤ i ∧ i < (d.size : Int)))) := by
  refine ⟨?_, ?_, fun N i hi => (mem_ascending N i).1 hi, fun d i v =>
    ⟨setX_error_iff d i v, setY_error_iff d i v, getX_error_iff d i, getY_error_iff d i⟩⟩
  · obtain ⟨d, hd, _⟩ := main_eq α
    exact ⟨d, hd⟩
  · intro a N
    obtain ⟨d0, d1, d2, h0, h1, h2, _⟩ := pipeline_spec a N
    obtain ⟨e0, he0, _, hs0⟩ := create_ok a N
    rw [h0] at he0
    cases he0
    exact ⟨d0, d1, d2, h0, hs0, h1, h2, traced_ok _ _ _ _ h1, traced_ok _ _ _ _ h2⟩

/-- C4 on an example: index 9 is visited by the loops of `main` (bound 10) and lies
inside `[0, 10)`. -/
theorem main_in_bounds_example :
    (9 : Int) ∈ ascending 10 ∧ (0 ≤ (9 : Int) ∧ (9 : Int) < 10) :=
  ⟨by decide, (main_in_bounds ℚ).2.2.1 10 9 (by decide)⟩

/-- C7: frame of one iteration of the second loop.  For every index `i` inside the
buffers the body succeeds, leaves `a`, the size and all of `x` unchanged, and changes
`y` at index `i` only, where it stores `a * x[i] + y[i]`; the value stored is the same
in every object that agrees on `a`, `x[i]` and `y[i]`; and the whole loop leaves `a`
and `x` unchanged. -/
theorem daxpyBody_frame [Mul α] [Add α] (d : daxpy α) (i : Fin d.size) :
    (∃ d' : daxpy α, daxpyBody ((i : Nat) : Int) d = Except.ok d' ∧
      d'.getConst = d.getConst ∧ d'.size = d.size ∧ d'.x = d.x ∧
      ∀ j : Nat, d'.y[j]? =
        if j = (i : Nat) then
          some (d.a * d.x.get (i.cast d.hx.symm) + d.y.get (i.cast d.hy.symm))
        else d.y[j]?) ∧
    (∀ e : daxpy α, e.size = d.size → e.a = d.a → e.x[(i : Nat)]? = d.x[(i : Nat)]? →
      e.y[(i : Nat)]? = d.y[(i : Nat)]? →
      (daxpyBody ((i : Nat) : Int) e).map (fun r => r.y[(i : Nat)]?)
        = (daxpyBody ((i : Nat) : Int) d).map (fun r => r.y[(i : Nat)]?)) ∧
    (∃ d'' : daxpy α, daxpyLoop (d.size : Int) d = Except.ok d'' ∧
      d''.getConst = d.getConst ∧ d''.size = d.size ∧ d''.x = d.x) := by
  have hlx : (i : Nat) < d.x.length := by rw [d.hx]; exact i.isLt
  have hly : (i : Nat) < d.y.length := by rw [d.hy]; exact i.isLt
  refine ⟨⟨_, daxpyBody_ok d i i.isLt, rfl, rfl, rfl, ?_⟩, ?_, ⟨_, daxpyLoop_spec d, rfl, rfl, rfl⟩⟩
  · intro j
    show (d.y.set (i : Nat) _)[j]? = _
    by_cases hj : j = (i : Nat)
    · subst hj
      simp [List.getElem?_set_self hly]
    · have hj' : (i : Nat) ≠ j := fun h => hj h.symm
      simp [hj, List.getElem?_set_ne hj']
  · intro e hes hea hex hey
    have hi : (i : Nat) < e.size := by rw [hes]; exact i.isLt
    have helx : (i : Nat) < e.x.length := by rw [e.hx]; exact hi
    have hely : (i : Nat) < e.y.length := by rw [e.hy]; exact hi
    rw [daxpyBody_ok d i i.isLt, daxpyBody_ok e i hi]
    rw [List.getElem?_eq_getElem helx, List.getElem?_eq_getElem hlx] at hex
    rw [List.getElem?_eq_getElem hely, List.getElem?_eq_getElem hly] at hey
    simp only [Option.some.injEq] at hex hey
    simp [Except.map, List.getElem?_set_self hly, List.getElem?_set_self hely, hea, hex, hey]

/-- C7 on an example: two objects that agree on `a`, `x[1]` and `y[1]` and differ
elsewhere store the same value at index 1. -/
theorem daxpyBody_frame_example :
    (daxpyBody 1 (⟨2, 3, [7, 2, 9], [0, 5, 1], rfl, rfl⟩ : daxpy ℚ)).map (fun r => r.y[1]?)
      = (daxpyBody 1 (⟨2, 3, [1, 2, 3], [4, 5, 6], rfl, rfl⟩ : daxpy ℚ)).map (fun r => r.y[1]?) :=
  (daxpyBody_frame (⟨2, 3, [1, 2, 3], [4, 5, 6], rfl, rfl⟩ : daxpy ℚ) ⟨1, by decide⟩).2.1
    ⟨2, 3, [7, 2, 9], [0, 5, 1], rfl, rfl⟩ rfl rfl rfl rfl

/-- C8: postcondition of the first loop.  For every object the loop run with the size
as bound succeeds and leaves `x[i] = 1.0` and `y[i] = 0.5` at every index, with the
size and the scale factor unchanged; started on a newly constructed object of size
`N ≥ 0`, the scale factor is still the value given to the constructor. -/
theorem initLoop_postcondition (α : Type) [Zero α] [OfScientific α] :
    (∀ d : daxpy α, ∃ d' : daxpy α, initLoop (d.size : Int) d = Except.ok d' ∧
      d'.getConst = d.getConst ∧ d'.size = d.size ∧
      d'.x = List.replicate d.size 1.0 ∧ d'.y = List.replicate d.size 0.5 ∧
      ∀ i : Fin d.size, d'.getX ((i : Nat) : Int) = Except.ok 1.0 ∧
        d'.getY ((i : Nat) : Int) = Except.ok 0.5) ∧
    (∀ (a : α) (N : Nat), ∃ d0 d' : daxpy α, daxpy.create a (N : Int) = Except.ok d0 ∧
      initLoop (N : Int) d0 = Except.ok d' ∧ d'.getConst = a ∧ d'.size = N ∧
      d'.x = List.replicate N 1.0 ∧ d'.y = List.replicate N 0.5) := by
  constructor
  · intro d
    obtain ⟨d', h, ha, hs, hx, hy⟩ := initLoop_spec d
    exact ⟨d', h, ha, hs, hx, hy, fun i =>
      ⟨getX_replicate d' d.size _ hx i, getY_replicate d' d.size _ hy i⟩⟩
  · intro a N
    obtain ⟨d0, h0, h0a, h0s⟩ := create_ok a N
    obtain ⟨d', h, ha, hs, hx, hy⟩ := initLoop_spec d0
    rw [h0s] at h hx hy hs
    exact ⟨d0, d', h0, h, ha.trans h0a, hs, hx, hy⟩

end MatrixExponential

/-! ## The virtual-method demo: lemmas on the event log -/

namespace BigScience

theorem computeLoop_eq_foldl (writes : Int → Int → Nat → Bool) (N : Int) (s : State) :
    computeLoop writes N s = (ascending N).foldl (fun s k => computeCall writes k N s) s := by
  unfold computeLoop
  rw [forLoop_eq_foldlM, List.foldl_eq_foldlM]
  rfl

theorem foldl_computeCall_log (writes : Int → Int → Nat → Bool) (N : Int) (l : List Int) :
    ∀ s : State, (l.foldl (fun s k => computeCall writes k N s) s).log
      = s.log ++ l.map (fun k => Event.compute k N) := by
  induction l with
  | nil => intro s; simp
  | cons k l ih =>
    intro s
    rw [List.foldl_cons, ih]
    simp [computeCall]

theorem foldl_computeCall_allocated (writes : Int → Int → Nat → Bool) (N : Int) (l : List Int) :
    ∀ s : State, (∃ init, s.x = Buffer.allocated init) →
      ∃ init, (l.foldl (fun s k => computeCall writes k N s) s).x = Buffer.allocated init := by
  induction l with
  | nil => intro s h; exact h
  | cons k l ih =>
    intro s h
    rw [List.foldl_cons]
    apply ih
    obtain ⟨init, hinit⟩ := h
    exact ⟨markWritten (writes k N) init, by simp [computeCall, hinit]⟩

theorem computeLoop_log (writes : Int → Int → Nat → Bool) (N : Int) (s : State) :
    (computeLoop writes N s).log = s.log ++ (ascending N).map (fun k => Event.compute k N) := by
  rw [computeLoop_eq_foldl, foldl_computeCall_log]

theorem run_log (writes : Int → Int → Nat → Bool) (N : Int) :
    (readElem 0 (deleteArray (computeLoop writes N (newArray N State.initial)))).log
      = Event.alloc N :: (ascending N).map (fun k => Event.compute k N)
          ++ [Event.release true, Event.read 0 ReadStatus.afterRelease] := by
  obtain ⟨init, hinit⟩ := foldl_computeCall_allocated writes N (ascending N)
    (newArray N State.initial) ⟨_, rfl⟩
  rw [← computeLoop_eq_foldl] at hinit
  simp only [readElem, deleteArray, readStatus, computeLoop_log, hinit]
  simp [newArray, State.initial]

/-- The events of `main`, whatever `compute` writes: the allocation, one call of
`compute` per index in ascending order, the release of an allocated buffer, and the
read of `x[0]`, which finds the buffer released. -/
theorem main_log (writes : Int → Int → Nat → Bool) :
    (main writes).log
      = Event.alloc 10000 :: (ascending 10000).map (fun k => Event.compute k 10000)
          ++ [Event.release true, Event.read 0 ReadStatus.afterRelease] :=
  run_log writes 10000

theorem computeCalls_shape (N : Int) (l : List Int) :
    computeCalls (Event.alloc N :: l.map (fun k => Event.compute k N)
        ++ [Event.release true, Event.read 0 ReadStatus.afterRelease])
      = l.map (fun k => (k, N)) := by
  simp only [computeCalls, List.filterMap_cons, List.filterMap_append, List.filterMap_map,
    Function.comp_def, List.filterMap_nil, List.append_nil]
  exact congrFun (List.filterMap_eq_map (fun k : Int => (k, N))) l

theorem releaseCount_shape (N : Int) (l : List Int) :
    releaseCount (Event.alloc N :: l.map (fun k => Event.compute k N)
        ++ [Event.release true, Event.read 0 ReadStatus.afterRelease]) = 1 := by
  simp [releaseCount, List.filter_append, List.filter_map, Function.comp_def]

theorem count_release_shape (N : Int) (l : List Int) (b : Bool) :
    (Event.alloc N :: l.map (fun k => Event.compute k N)
        ++ [Event.release true, Event.read 0 ReadStatus.afterRelease]).count (Event.release b)
      = if b then 1 else 0 := by
  have h : (l.map (fun k => Event.compute k N)).count (Event.release b) = 0 := by
    rw [List.count_eq_zero]
    intro hm
    obtain ⟨k, _, hk⟩ := List.mem_map.1 hm
    exact Event.noConfusion hk
  rw [List.cons_append, List.count_cons, List.count_append, h]
  cases b <;> simp [List.count_cons]

theorem eventsAfterRelease_shape (N : Int) (l : List Int) :
    eventsAfterRelease (Event.alloc N :: l.map (fun k => Event.compute k N)
        ++ [Event.release true, Event.read 0 ReadStatus.afterRelease])
      = [Event.read 0 ReadStatus.afterRelease] := by
  unfold eventsAfterRelease
  rw [List.cons_append, List.dropWhile_cons_of_pos (by simp), List.dropWhile_append_of_pos]
  · simp [List.dropWhile]
  · intro e he
    obtain ⟨k, _, rfl⟩ := List.mem_map.1 he
    rfl

theorem readsSafe_shape (N : Int) (l : List Int) :
    readsSafe (Event.alloc N :: l.map (fun k => Event.compute k N)
        ++ [Event.release true, Event.read 0 ReadStatus.afterRelease]) = false := by
  simp [readsSafe]


/-! ## The virtual-method demo: theorems -/

/-- C5: the claim fails on the code.  Whatever `compute` writes, the read of `x[0]`
printed at line 24 is the last event of `main` and finds the buffer already released
by the `delete[] x` of line 22, so the reads of `main` are not all safe. -/
theorem main_reads_released (writes : Int → Int → Nat → Bool) :
    (main writes).log.getLast? = some (Event.read 0 ReadStatus.afterRelease) ∧
    Event.read 0 ReadStatus.afterRelease ∈ (main writes).log ∧
    readsSafe (main writes).log = false := by
  rw [main_log]
  refine ⟨?_, ?_, readsSafe_shape _ _⟩
  · rw [List.getLast?_append]
    rfl
  · simp

/-- C6: on every execution of `main` (whatever `compute` writes) the log holds exactly
one `delete[]` event, it released an allocated buffer, the only event after it is the
read of `x[0]` (so no allocation follows the release), the single allocation is the
first event, and `x` ends released. -/
theorem main_releases_once (writes : Int → Int → Nat → Bool) :
    releaseCount (main writes).log = 1 ∧
    (main writes).log.count (Event.release true) = 1 ∧
    (main writes).log.count (Event.release false) = 0 ∧
    eventsAfterRelease (main writes).log = [Event.read 0 ReadStatus.afterRelease] ∧
    (∀ n : Int, (eventsAfterRelease (main writes).log).count (Event.alloc n) = 0) ∧
    (main writes).log.head? = some (Event.alloc 10000) ∧
    (main writes).x = Buffer.released := by
  rw [main_log]
  refine ⟨releaseCount_shape _ _, count_release_shape _ _ true, count_release_shape _ _ false,
    eventsAfterRelease_shape _ _, ?_, rfl, rfl⟩
  intro n
  rw [eventsAfterRelease_shape]
  rfl

/-- C9, as stated, fails: the second call `compute(&x[1], 10000)` of the loop has the
window `[1, 10001)`, which is not inside the buffer `[0, 10000)`. -/
theorem compute_window_counterexample :
    ¬ (∀ c ∈ computeCalls (main (fun _ _ _ => false)).log, windowInside c.1 c.2 10000) := by
  intro h
  have hm : ((1 : Int), (10000 : Int)) ∈ computeCalls (main (fun _ _ _ => false)).log := by
    rw [main_log, computeCalls_shape]
    exact List.mem_map.2 ⟨1, (mem_ascending _ _).2 ⟨by decide, by decide⟩, rfl⟩
  have := h _ hm
  revert this
  decide

/-- C9, amended: for every call `compute(&x[k], N)` made by the loop of `main`
(N = 10000) the start index `k` lies inside the buffer, `0 ≤ k < N`, and the count
passed is `N`; the window `[k, k + N)` lies inside `[0, N)` exactly when `k = 0`. -/
theorem compute_start_in_buffer (writes : Int → Int → Nat → Bool) :
    ∀ c ∈ computeCalls (main writes).log,
      (0 ≤ c.1 ∧ c.1 < 10000 ∧ c.2 = 10000) ∧ (windowInside c.1 c.2 10000 ↔ c.1 = 0) := by
  intro c hc
  rw [main_log, computeCalls_shape] at hc
  obtain ⟨k, hk, rfl⟩ := List.mem_map.1 hc
  obtain ⟨h0, h1⟩ := (mem_ascending _ _).1 hk
  refine ⟨⟨h0, h1, rfl⟩, ?_⟩
  show (0 ≤ k ∧ k + 10000 ≤ 10000) ↔ k = 0
  omega

theorem first_call_mem (writes : Int → Int → Nat → Bool) :
    ((0 : Int), (10000 : Int)) ∈ computeCalls (main writes).log := by
  rw [main_log, computeCalls_shape]
  exact List.mem_map.2 ⟨0, (mem_ascending _ _).2 ⟨by decide, by decide⟩, rfl⟩

/-- C9, amended, on the first call: `compute(&x[0], 10000)` is made by the loop, its
start index is inside the buffer and its window is inside the buffer. -/
theorem compute_start_in_buffer_example :
    ((0 : Int), (10000 : Int)) ∈ computeCalls (main (fun _ _ _ => false)).log ∧
    ((0 ≤ (0 : Int) ∧ (0 : Int) < 10000 ∧ (10000 : Int) = 10000) ∧
      (windowInside 0 10000 10000 ↔ (0 : Int) = 0)) :=
  ⟨first_call_mem _, compute_start_in_buffer (fun _ _ _ => false) (0, 10000) (first_call_mem _)⟩

end BigScience

/-! ## The three loops: iteration count -/

section LoopCount

open MatrixExponential BigScience

/-- C10: termination and iteration count.  For every integer `N` the list of visited
indices has length `max N 0` and holds `0, 1, ..., N-1` in ascending order; each of the
two loops of `matrix_exponential.cpp`, run on an object whose size is at least `N`,
returns after visiting exactly these indices in this order, and so does the loop of
`bigscience.cc`, which makes exactly the calls `compute(&x[k], N)` for these `k`. -/
theorem loops_visit_ascending (α : Type) [Mul α] [Add α] [OfScientific α] (N : Int) :
    ((ascending N).length : Int) = max N 0 ∧
    (∀ j : Fin (ascending N).length, (ascending N).get j = ((j : Nat) : Int)) ∧
    (∀ d : daxpy α, N ≤ (d.size : Int) → ∃ d' : daxpy α, initLoop N d = Except.ok d' ∧
      forLoop N (traced initBody) 0 (d, []) = Except.ok (d', ascending N)) ∧
    (∀ d : daxpy α, N ≤ (d.size : Int) → ∃ d' : daxpy α, daxpyLoop N d = Except.ok d' ∧
      forLoop N (traced daxpyBody) 0 (d, []) = Except.ok (d', ascending N)) ∧
    (∀ (writes : Int → Int → Nat → Bool) (s : State),
      Id.run (forLoop N (traced fun k s => pure (computeCall writes k N s)) 0 (s, []))
        = (computeLoop writes N s, ascending N) ∧
      (computeLoop writes N s).log = s.log ++ (ascending N).map (fun k => Event.compute k N)) := by
  refine ⟨ascending_length N, ?_, ?_, ?_, ?_⟩
  · intro j
    have hj : (j : Nat) < N.toNat := by
      have := j.isLt
      simpa [ascending] using this
    have h := ascending_getElem? N j (by omega)
    rw [List.getElem?_eq_getElem j.isLt] at h
    exact Option.some.inj h
  · intro d hN
    obtain ⟨d', hrun, _⟩ := foldlM_initBody (ascending N) d
      (fun i hi => by have := (mem_ascending N i).1 hi; omega)
    have h : initLoop N d = Except.ok d' := by
      unfold initLoop
      rw [forLoop_eq_foldlM]
      exact hrun
    exact ⟨d', h, traced_ok _ _ _ _ h⟩
  · intro d hN
    obtain ⟨d', hrun, _⟩ := foldlM_daxpyBody (ascending N) d (ascending_nodup N)
      (fun i hi => by have := (mem_ascending N i).1 hi; omega)
    have h : daxpyLoop N d = Except.ok d' := by
      unfold daxpyLoop
      rw [forLoop_eq_foldlM]
      exact hrun
    exact ⟨d', h, traced_ok _ _ _ _ h⟩
  · intro writes s
    refine ⟨?_, computeLoop_log writes N s⟩
    rw [forLoop_traced]
    rfl

/-- C10 on an example: the second loop with bound 3 on an object of size 3 returns and
visits the indices `0, 1, 2`. -/
theorem loops_visit_ascending_example :
    (3 : Int) ≤ ((3 : Nat) : Int) ∧
    ∃ d' : daxpy ℚ, daxpyLoop 3 (⟨2, 3, [1, 2, 3], [4, 5, 6], rfl, rfl⟩ : daxpy ℚ) = Except.ok d' ∧
      forLoop 3 (traced daxpyBody) 0 ((⟨2, 3, [1, 2, 3], [4, 5, 6], rfl, rfl⟩ : daxpy ℚ), [])
        = Except.ok (d', ascending 3) :=
  ⟨by decide, (loops_visit_ascending ℚ 3).2.2.2.1 ⟨2, 3, [1, 2, 3], [4, 5, 6], rfl, rfl⟩ (by decide)⟩

end LoopCount
